import Mathlib

/-!
Verification development for the ANIM codec (Blender io-scene-ANIM add-on).

The definitions below are a shallow embedding of the Python sources
`parse_anim.py`, `import_anim.py`, `export_anim.py` and `anim_utils.py`.
Python's dynamically typed values are modelled by the inductive `PyV`
(strings, ints, floats, bools, None); Python floats that appear only as
opaque data (key times, values) are modelled by exact rationals, and the
real-valued tangent math is modelled over `ℝ`.
-/

set_option maxRecDepth 4000

/-- Model of a Python float value produced by `float(...)`: a finite value
(kept as an exact rational; binary rounding of decimal literals is not
modelled because no claim depends on it), the two infinities, or NaN. -/
inductive PyFloat where
  | finite (q : ℚ)
  | inf
  | ninf
  | nan
deriving DecidableEq, Inhabited

/-- Model of the dynamically typed Python values flowing through the codec:
strings, ints, floats, bools and `None`. -/
inductive PyV where
  | s (v : String)
  | i (v : Int)
  | f (v : PyFloat)
  | b (v : Bool)
  | pnone
deriving DecidableEq, Inhabited

/-- Python truthiness (`if value:`): empty string, zero numbers, `False`
and `None` are falsy; everything else (including NaN) is truthy. -/
def pyTruthy : PyV → Bool
  | .s v => decide (v ≠ "")
  | .i v => decide (v ≠ 0)
  | .f v => decide (v ≠ .finite 0)
  | .b v => v
  | .pnone => false

/-- The whitespace characters stripped/split by Python `str.strip()` and
`str.split()`. -/
def pyIsSpace (c : Char) : Bool :=
  c = ' ' || c = '\t' || c = '\n' || c = '\r' || c = '\x0b' || c = '\x0c'

/-- Python `str.strip()` on a character list. -/
def pyStrip (cs : List Char) : List Char :=
  ((cs.dropWhile pyIsSpace).reverse.dropWhile pyIsSpace).reverse

/-- Numeric value of a decimal digit character. -/
def digitVal (c : Char) : Nat := c.toNat - 48

/-- Consume a maximal run of decimal digits in which single underscores may
occur between digits (CPython's numeric-literal underscore rule).
Accumulates the value and the number of digits; returns the rest. -/
def digitsURest : Nat → Nat → List Char → (Nat × Nat × List Char)
  | v, n, [] => (v, n, [])
  | v, n, [c] =>
    if c.isDigit then (v * 10 + digitVal c, n + 1, []) else (v, n, [c])
  | v, n, c :: c2 :: cs =>
    if c.isDigit then digitsURest (v * 10 + digitVal c) (n + 1) (c2 :: cs)
    else if c = '_' then
      (if c2.isDigit then digitsURest (v * 10 + digitVal c2) (n + 1) cs
       else (v, n, c :: c2 :: cs))
    else (v, n, c :: c2 :: cs)

/-- Parse a digit run that must start with a digit (as required after a sign
or an exponent marker by `int(...)`/`float(...)`). -/
def parseDigitsU : List Char → Option (Nat × Nat × List Char)
  | [] => Option.none
  | c :: cs => if c.isDigit then some (digitsURest (digitVal c) 1 cs) else Option.none

/-- CPython `int(string)` in base 10: optional surrounding whitespace, an
optional sign, then digits with optional single underscores between digits.
`Option.none` models the `ValueError` raised on anything else. -/
def pyIntParse (s : String) : Option Int :=
  let cs := pyStrip s.toList
  let sr : Bool × List Char :=
    match cs with
    | '+' :: r => (false, r)
    | '-' :: r => (true, r)
    | r => (false, r)
  match parseDigitsU sr.2 with
  | some (v, _, []) => some (if sr.1 then -(v : Int) else (v : Int))
  | _ => Option.none

/-- Case-insensitive character equality. -/
def ciEq (a b : Char) : Bool := a.toLower = b.toLower

/-- Match a pattern case-insensitively at the head of a list, returning the
rest of the input on success. -/
def ciMatch : List Char → List Char → Option (List Char)
  | [], cs => some cs
  | _ :: _, [] => Option.none
  | p :: ps, c :: cs => if ciEq p c then ciMatch ps cs else Option.none

/-- Parse an optional exponent's signed digit part; on malformed exponent
digits the original input is returned so the overall parse fails on the
leftover characters (as `float(...)` would raise `ValueError`). -/
def pyExpNum (rest orig : List Char) : Int × List Char :=
  let sr : Bool × List Char :=
    match rest with
    | '+' :: r2 => (false, r2)
    | '-' :: r2 => (true, r2)
    | r2 => (false, r2)
  match parseDigitsU sr.2 with
  | some (v, _, r3) => (if sr.1 then -(v : Int) else (v : Int), r3)
  | Option.none => (0, orig)

/-- Parse an optional `e`/`E` exponent. -/
def pyExpPart (cs : List Char) : Int × List Char :=
  match cs with
  | 'e' :: rest => pyExpNum rest cs
  | 'E' :: rest => pyExpNum rest cs
  | _ => (0, cs)

/-- CPython `float(string)`: optional whitespace and sign, then `inf`,
`infinity` or `nan` (case-insensitive) or a decimal literal
`digits [. digits] [exponent]` with at least one mantissa digit.
`Option.none` models the `ValueError` raised on anything else.
Finite values are kept exact; decimal-to-binary rounding and overflow to
infinity are not modelled (no claim depends on them). -/
def pyFloatParse (s : String) : Option PyFloat :=
  let cs := pyStrip s.toList
  let sr : Bool × List Char :=
    match cs with
    | '+' :: r => (false, r)
    | '-' :: r => (true, r)
    | r => (false, r)
  let neg := sr.1
  let cs2 := sr.2
  match ciMatch "infinity".toList cs2 with
  | some [] => some (if neg then .ninf else .inf)
  | _ =>
  match ciMatch "inf".toList cs2 with
  | some [] => some (if neg then .ninf else .inf)
  | _ =>
  match ciMatch "nan".toList cs2 with
  | some [] => some .nan
  | _ =>
    let ipr : Nat × Nat × List Char :=
      match parseDigitsU cs2 with
      | some x => x
      | Option.none => (0, 0, cs2)
    let iv := ipr.1
    let ic := ipr.2.1
    let r1 := ipr.2.2
    let hasDot : Bool := match r1 with | '.' :: _ => true | _ => false
    let r1b := if hasDot then r1.tail else r1
    let fpr : Nat × Nat × List Char :=
      if hasDot then
        match parseDigitsU r1b with
        | some x => x
        | Option.none => (0, 0, r1b)
      else (0, 0, r1b)
    let fv := fpr.1
    let fcnt := fpr.2.1
    let r2 := fpr.2.2
    if ic + fcnt = 0 then Option.none
    else
      let ep := pyExpPart r2
      match ep.2 with
      | [] =>
        let mant : ℚ := (iv : ℚ) * (10 : ℚ) ^ fcnt + (fv : ℚ)
        let q : ℚ := mant / (10 : ℚ) ^ fcnt * (10 : ℚ) ^ ep.1
        some (.finite (if neg then -q else q))
      | _ => Option.none

/-- Model of `float(value)` as a builtin: `Option.none` models a raised
error (only the string case can fail with `ValueError` here). -/
def float_builtin : PyV → Option PyFloat
  | .s v => pyFloatParse v
  | .i v => some (.finite v)
  | .f v => some v
  | .b v => some (.finite (if v then 1 else 0))
  | .pnone => Option.none

/-- `parse_anim.getFloat`: "Read value and returns a float. If error return
NaN." Falsy inputs (empty string, None) skip the conversion entirely and
are returned unchanged. -/
def getFloat (value : PyV) : PyV :=
  if pyTruthy value then
    match float_builtin value with
    | some x => .f x
    | Option.none => .f .nan
  else value

/-- `parse_anim.getInt`: "Read value and returns a int. If error return
None." -/
def getInt (value : String) : PyV :=
  match pyIntParse value with
  | some n => .i n
  | Option.none => .pnone

/-- Python `str.split()` (split on whitespace runs, dropping empty pieces):
accumulator-based worker. -/
def splitWsAux : List Char → List Char → List (List Char)
  | [], acc => if acc.isEmpty then [] else [acc.reverse]
  | c :: cs, acc =>
    if pyIsSpace c then
      if acc.isEmpty then splitWsAux cs [] else acc.reverse :: splitWsAux cs []
    else splitWsAux cs (c :: acc)

/-- Python `str.split()` on a character list. -/
def pySplitWs (cs : List Char) : List (List Char) := splitWsAux cs []

/-- Python `str.split(sep)` worker for a single-character separator
(keeps empty pieces, as Python does). -/
def splitOnCharAux (sep : Char) : List Char → List Char → List (List Char)
  | [], acc => [acc.reverse]
  | c :: cs, acc =>
    if c = sep then acc.reverse :: splitOnCharAux sep cs []
    else splitOnCharAux sep cs (c :: acc)

/-- Python `str.split(sep)` for a single-character separator. -/
def pySplitOn (sep : Char) (cs : List Char) : List (List Char) :=
  splitOnCharAux sep cs []

/-- Does the pattern match at the head of the text? (worker for Python's
substring containment test). -/
def leadsWith : List Char → List Char → Bool
  | [], _ => true
  | _ :: _, [] => false
  | p :: ps, c :: cs => p = c && leadsWith ps cs

/-- Does the pattern occur anywhere in the text? -/
def occursInAux (pat : List Char) : List Char → Bool
  | [] => leadsWith pat []
  | c :: cs => leadsWith pat (c :: cs) || occursInAux pat cs

/-- Python `k in a` substring containment for strings. -/
def strContains (a k : String) : Bool := occursInAux k.toList a.toList

/-- `parse_anim.cleanLine`: "Clean line of semicolon and comments."
(`line.split(";")[0].strip()`). -/
def cleanLine (line : String) : String :=
  String.mk (pyStrip (line.toList.takeWhile (fun c => decide (c ≠ ';'))))

/-- Index-carrying list map (Python `enumerate`-style), used to model the
in-place cast of the trailing fields of an `anim` line. -/
def pyMapIdx {α β : Type} (f : Nat → α → β) : Nat → List α → List β
  | _, [] => []
  | i, a :: rest => f i a :: pyMapIdx f (i + 1) rest

/-- `parse_anim.read_prop_anim`: clean the line, drop the `"anim "` offset,
split on whitespace, flag `isEmpty` when fewer than 4 fields remain, and
cast the last 3 fields with `getInt` (Python mutates `props[-3:]` in
place; `Option.none` models the uncaught `IndexError` that negative
indexing raises when fewer than 3 fields are present). -/
def read_prop_anim (line : String) : Option (List PyV × Bool) :=
  let cl := cleanLine line
  let toks := (pySplitWs (cl.toList.drop 5)).map String.mk
  let isEmpty : Bool := decide (toks.length < 4)
  if toks.length < 3 then Option.none
  else
    some (pyMapIdx (fun idx tok =>
      if toks.length ≤ idx + 3 then getInt tok else PyV.s tok) 0 toks, isEmpty)

/-- `anim_utils.ASCII_X = 88`. -/
def ASCII_X : Nat := 88

/-- The channel-letter encoder of `export_anim.write_fcurve`
(`fc_chan = chr(anim_utils.ASCII_X + fc.array_index)`); the quaternion
variant with offset 87 (`'W'`) exists only as commented-out code in the
source, so every group uses the offset 88 (`'X'`) rule. -/
def fc_chan (array_index : Nat) : Char := Char.ofNat (ASCII_X + array_index)

/-- The channel-letter decoder of `import_anim.get_node_elements`
(`rna_id = ord(attr[1][-1]) - anim_utils.ASCII_X`), applied to the last
character of the short attribute name. -/
def rna_id_of (c : Char) : Int := (c.toNat : Int) - (ASCII_X : Int)

/-- `anim_utils.B3D_ATTR_NAMES` (insertion order preserved, as Python
dicts do). -/
def B3D_ATTR_NAMES : List (String × String) :=
  [("translate", "location"), ("rotate", "rotation_euler"), ("scale", "scale")]

/-- `import_anim.ANIM_Node`: name and the two trailing counters are
`getInt` results or raw tokens, hence modelled as dynamic `PyV` values;
`property` is always a string and `array_index` always an int by the time
a node is built. -/
structure ANIM_Node where
  name : PyV
  property : String
  array_index : Int
  children : PyV
  id : PyV
deriving DecidableEq, Inhabited

/-- `import_anim.get_node_elements`: returns the parsed node, `some
Option.none` for the explicit `return None` on an empty declaration, and
`Option.none` for the uncaught exceptions (`IndexError`/`KeyError`/
`TypeError`) the remaining paths can raise. -/
def get_node_elements (line : String) : Option (Option ANIM_Node) :=
  match read_prop_anim line with
  | Option.none => Option.none
  | some (props, isEmpty) =>
    if isEmpty then some Option.none
    else
      match props[0]? with
      | some (PyV.s attr) =>
        match props[2]?, props[props.length - 2]?, props[props.length - 1]? with
        | some nm, some ch, some idx =>
          if B3D_ATTR_NAMES.any (fun kv => strContains attr kv.1) then
            let parts := (pySplitOn '.' attr.toList).map String.mk
            match parts[0]? with
            | some p0 =>
              match B3D_ATTR_NAMES.lookup p0 with
              | some fc_attr =>
                match parts[1]? with
                | some p1 =>
                  match p1.toList.getLast? with
                  | some cLast => some (some ⟨nm, fc_attr, rna_id_of cLast, ch, idx⟩)
                  | Option.none => Option.none
                | Option.none => Option.none
              | Option.none => Option.none
            | Option.none => Option.none
          else some (some ⟨nm, attr, 0, ch, idx⟩)
        | _, _, _ => Option.none
      | _ => Option.none

/-- `import_anim.ANIM_Keyframe`: key time and value (exact rationals),
tangent types, the three flags (stored at Python truthiness level), and
the four optional fixed-tangent fields. -/
structure ANIM_Keyframe where
  time : ℚ
  value : ℚ
  tan_in : String
  tan_out : String
  islocked_tangent : Bool
  islocked_weight : Bool
  isbreakdown : Bool
  tan_in_angle : Option ℚ
  tan_in_weight : Option ℚ
  tan_out_angle : Option ℚ
  tan_out_weight : Option ℚ
deriving DecidableEq, Inhabited

/-- `import_anim.ANIM_FCurve`: owning node, settings dict (opaque payload
here) and the keyframe list. -/
structure ANIM_FCurve where
  node : ANIM_Node
  settings : List (String × PyV)
  keys : List ANIM_Keyframe
deriving DecidableEq, Inhabited

/-- `import_anim.animkey_make_simple(t, val)`: a single `auto`/`auto`,
tangent-locked, weight-unlocked, non-breakdown keyframe (the Python ints
1/0/0 are modelled at truthiness level). -/
def animkey_make_simple (t val : ℚ) : ANIM_Keyframe :=
  ⟨t, val, "auto", "auto", true, false, false,
   Option.none, Option.none, Option.none, Option.none⟩

/-- The synthesized channel built inside `complete_animFCgroup` for a
missing component `k`: node fields copied from the group's first channel
`p0`, component index `k`, id `-1`, and a single identity keyframe. -/
def mkSynth (p0 : ANIM_FCurve) (t : ℚ) (k : Nat) (val : ℚ) : ANIM_FCurve :=
  ⟨⟨p0.node.name, p0.node.property, (k : Int), p0.node.children, PyV.i (-1)⟩,
   p0.settings, [animkey_make_simple t val]⟩

/-- Python list assignment `l[i] = x` with a caught `IndexError`
(`try: ... except IndexError: continue`): indices in `[0, len)` assign
directly, negative indices in `[-len, 0)` wrap, anything else is a no-op
because the raised `IndexError` is swallowed. -/
def pySetIdx {α : Type} (l : List (Option α)) (i : Int) (x : α) : List (Option α) :=
  if 0 ≤ i ∧ i < (l.length : Int) then l.set i.toNat (some x)
  else if -(l.length : Int) ≤ i ∧ i < 0 then l.set (i + (l.length : Int)).toNat (some x)
  else l

/-- `fc_identity = [0, 0, 0]` of `import_anim.complete_animFCgroup`
(the quaternion variant is an unimplemented TODO in the source). -/
def fc_identity : List ℚ := [0, 0, 0]

/-- The `for k, val in enumerate(fc_identity)` loop body of
`complete_animFCgroup`: synthesize a channel when component `k` is not
among the present indices, then place the group's `k`-th channel (if any)
at the position given by its own `array_index`. -/
def complete_loop (p0 : ANIM_FCurve) (g : List ANIM_FCurve) (t : ℚ) :
    Nat → List ℚ → List (Option ANIM_FCurve) → List (Option ANIM_FCurve)
  | _, [], acc => acc
  | k, val :: rest, acc =>
    let fc_ids := g.map fun c => c.node.array_index
    let acc1 := if (k : Int) ∈ fc_ids then acc else acc.set k (some (mkSynth p0 t k val))
    let acc2 := match g[k]? with
      | some afc => pySetIdx acc1 afc.node.array_index afc
      | Option.none => acc1
    complete_loop p0 g t (k + 1) rest acc2

/-- `import_anim.complete_animFCgroup(anim_fcgroup, first_frame)`:
`Option.none` models the uncaught `IndexError` on an empty group
(`anim_fcgroup[0]`); otherwise the three-slot result list, whose `None`
placeholders survive only for malformed groups. -/
def complete_animFCgroup (g : List ANIM_FCurve) (t : ℚ) :
    Option (List (Option ANIM_FCurve)) :=
  match g with
  | [] => Option.none
  | p0 :: _ =>
    some (complete_loop p0 g t 0 fc_identity [Option.none, Option.none, Option.none])

/-- Characterization of the completed group's slot `k`: the unique present
channel with component index `k` if one exists, else the synthesized
channel. Used to state what `complete_animFCgroup` computes. -/
def resultAt (g : List ANIM_FCurve) (t : ℚ) (k : Nat) : ANIM_FCurve :=
  match g.find? (fun c => c.node.array_index = (k : Int)) with
  | some c => c
  | Option.none => mkSynth g.headI t k 0

/-- A Blender keyframe point as touched by `export_anim.offset_transforms`:
co-ordinates and the two handle points, each a (time, value) pair. -/
structure KeyPoint where
  co : ℚ × ℚ
  handle_left : ℚ × ℚ
  handle_right : ℚ × ℚ
deriving DecidableEq, Inhabited

/-- The in-place mutation of `export_anim.offset_transforms` lines 94-98:
the old key value is captured first, each handle's value component is
shifted by `t_value - old_value`, and the key value becomes `t_value`
(handle time components are untouched). -/
def shiftKey (t_value : ℚ) (k : KeyPoint) : KeyPoint :=
  { co := (k.co.1, t_value),
    handle_left := (k.handle_left.1, (k.handle_left.2 - k.co.2) + t_value),
    handle_right := (k.handle_right.1, (k.handle_right.2 - k.co.2) + t_value) }

/-- The per-channel keyframe scan of `export_anim.offset_transforms`
lines 92-106: find the first keyframe whose time equals `frame` and shift
it (the loop breaks early), else call the Blender collaborator
`fc.keyframe_points.insert(frame, t_value)`, modelled by the
parameter `insertKP` (its result is added to the channel). -/
def offset_write_channel (insertKP : ℚ → ℚ → KeyPoint) (frame t_value : ℚ) :
    List KeyPoint → List KeyPoint
  | [] => [insertKP frame t_value]
  | k :: ks =>
    if k.co.1 = frame then shiftKey t_value k :: ks
    else k :: offset_write_channel insertKP frame t_value ks

/-- Blender keyframe interpolation modes handled by
`anim_utils.ANIM_TANGENT_TYPE`. -/
inductive InterpTy where
  | BEZIER
  | LINEAR
  | CONSTANT
deriving DecidableEq, Inhabited

/-- Blender handle types handled by `anim_utils.ANIM_TANGENT_TYPE`. -/
inductive HandleTy where
  | AUTO_CLAMPED
  | AUTO
  | VECTOR
  | ALIGNED
  | FREE
deriving DecidableEq, Inhabited

/-- The handle-type rows of `anim_utils.ANIM_TANGENT_TYPE`. -/
def ANIM_TANGENT_TYPE_handle : HandleTy → String
  | .AUTO_CLAMPED => "auto"
  | .AUTO => "spline"
  | .VECTOR => "linear"
  | .ALIGNED => "fixed"
  | .FREE => "fixed"

/-- The interpolation rows of `anim_utils.ANIM_TANGENT_TYPE`. -/
def ANIM_TANGENT_TYPE_interp : InterpTy → String
  | .BEZIER => "spline"
  | .LINEAR => "linear"
  | .CONSTANT => "step"

/-- A Blender keyframe as read by `export_anim.anim_keys_elements` when
emitting the per-key flag fields. -/
structure BlKey where
  time : ℚ
  interpolation : InterpTy
  handle_left_type : HandleTy
  handle_right_type : HandleTy
deriving DecidableEq, Inhabited

/-- One key line's flag fields as written by
`export_anim.anim_keys_elements`:
`<inTangent> <outTangent> <tangentLock> <weightLock> <breakdown>`. -/
structure EmittedKey where
  time : ℚ
  in_tan : String
  out_tan : String
  tan_lock : Nat
  weight_lock : Nat
  breakdown : Nat
deriving DecidableEq, Inhabited

/-- The keyframe loop of `export_anim.anim_keys_elements` lines 143-186,
restricted to the flag fields of each emitted key line (the numeric
time/value formatting is outside every claim). The loop state is the
mutable locals of the Python function: `tan_lock` (initialized to 1 once,
before the loop, and set to 0 when a key has a FREE handle) and
`prev_interp`. Keys outside the time range are skipped without touching
the state. -/
def anim_keys_loop (u : Bool) (s e : ℚ) :
    List BlKey → Nat → Option InterpTy → List EmittedKey
  | [], _, _ => []
  | kp :: rest, tan_lock, prev_interp =>
    if u ∧ ¬(s ≤ kp.time ∧ kp.time ≤ e) then
      anim_keys_loop u s e rest tan_lock prev_interp
    else
      let out_tan := if kp.interpolation ≠ .BEZIER
        then ANIM_TANGENT_TYPE_interp kp.interpolation
        else ANIM_TANGENT_TYPE_handle kp.handle_right_type
      let in_tan := if prev_interp ≠ some .BEZIER ∧ prev_interp ≠ Option.none
        then ANIM_TANGENT_TYPE_interp kp.interpolation
        else ANIM_TANGENT_TYPE_handle kp.handle_left_type
      let tan_lock2 := if kp.handle_left_type = .FREE ∨ kp.handle_right_type = .FREE
        then 0 else tan_lock
      ⟨kp.time, in_tan, out_tan, tan_lock2, 0, 0⟩ ::
        anim_keys_loop u s e rest tan_lock2 (some kp.interpolation)

/-- The emitted key-line flag fields of `export_anim.anim_keys_elements`
for one curve (initial `tan_lock = 1`, `prev_interp = None`). -/
def anim_keys_elements (u : Bool) (s e : ℚ) (kps : List BlKey) : List EmittedKey :=
  anim_keys_loop u s e kps 1 Option.none

/-- One probing step of CPython's `set` insertion: look at slot `i`; an
empty slot receives the value, a slot holding the same value leaves the
set unchanged, otherwise the perturb sequence
`perturb >>= 5; i = (i*5 + 1 + perturb) & mask` continues (table size 8,
so `mask = 7` and the `LINEAR_PROBES` fast path is never taken). The fuel
is irrelevant for the tables used here (at most 4 occupied slots). -/
def setAddLoop : Nat → List (Option Nat) → Nat → Nat → Nat → List (Option Nat)
  | 0, tbl, _, _, _ => tbl
  | fuel + 1, tbl, v, i, perturb =>
    match tbl.getD i Option.none with
    | Option.none => tbl.set i (some v)
    | some w =>
      if w = v then tbl
      else
        let perturb2 := perturb / 32
        setAddLoop fuel tbl v ((i * 5 + 1 + perturb2) % 8) perturb2

/-- CPython `set.add` on a size-8 table for a small non-negative integral
float, whose hash is its integer value (`hash(2.0) = 2`). Faithful as
long as at most 4 distinct values are inserted (the table is not resized
before the 5th insertion). -/
def setAdd (tbl : List (Option Nat)) (v : Nat) : List (Option Nat) :=
  setAddLoop 64 tbl v (v % 8) v

/-- A fresh CPython `set()`: 8 empty slots. -/
def emptyPySet : List (Option Nat) := List.replicate 8 Option.none

/-- `set.update(xs)`: insert the elements in sequence order. -/
def set_update (tbl : List (Option Nat)) (xs : List Nat) : List (Option Nat) :=
  xs.foldl setAdd tbl

/-- `export_anim.get_frames` (and the identical import-side
`import_anim.get_frames` with `use_time_range = false`): union the keyed
times of every channel of the group into one Python set, optionally
filtering by the export time range. Frame times are modelled as small
naturals (integral frame numbers). -/
def get_frames (fcs : List (List Nat)) (use_time_range : Bool) (s e : Nat)
    (frames : List (Option Nat)) : List (Option Nat) :=
  fcs.foldl (fun tbl fc =>
    set_update tbl (if use_time_range then fc.filter (fun t => decide (s ≤ t ∧ t ≤ e)) else fc)) frames

/-- The sequence of frames actually handed to the offset computation by
`export_anim.prep_node` (`for j, fr in enumerate(frames)` at lines
352/364) and by `import_anim.write_animation` (line 611): the iteration
order of the Python set built by `get_frames`, i.e. hash-table slot
order, not sorted order. -/
def frames_iter_order (fcs : List (List Nat)) : List Nat :=
  (get_frames fcs false 0 0 emptyPySet).filterMap id

/-- The scene rotation units accepted by `anim_utils.UNITS` for the
angular converter. -/
inductive AngUnit where
  | DEGREES
  | RADIANS
deriving DecidableEq, Inhabited

/-- The angular rows of `anim_utils.UNITS` (reference unit: one turn). -/
noncomputable def UNITS_angular : AngUnit → ℝ
  | .DEGREES => 360
  | .RADIANS => 2 * Real.pi

/-- `anim_utils.angular_converter = units_convertor('RADIANS', scene_unit)`:
multiply by `UNITS[scene_unit] / UNITS['RADIANS']`. -/
noncomputable def angular_converter (u : AngUnit) (v : ℝ) : ℝ :=
  v * (UNITS_angular u / (2 * Real.pi))

/-- `math.copysign(a, b)` (the model has no negative zero, so `b = 0`
yields `|a|`, matching `copysign` on the positive zero produced by
subtracting equal values). -/
noncomputable def copysign (a b : ℝ) : ℝ := if b < 0 then -|a| else |a|

/-- Python `round(x, 6)` (round-half-even only differs from Mathlib's
`round` on exact decimal ties, which no claim exercises). -/
noncomputable def round6 (x : ℝ) : ℝ := ((round (x * 1000000) : ℤ) : ℝ) / 1000000

/-- `export_anim.anim_keys_elements.tangent_calc(kp, handle)`: the handle
vector is taken as keyframe minus handle (`x = kp.co[0] - handle[0]`,
`y = kp.co[1] - handle[1]`); nonzero `x` yields the slope angle through
`atan`, converted to the document's angular unit and clamped to 0 inside
(-0.001, 0.001); `x = 0` yields `copysign(90, y)`; the magnitude is
`math.hypot(x, y)`; both results pass through `round(_, 6)`. -/
noncomputable def tangent_calc (u : AngUnit) (kp_co handle : ℝ × ℝ) : ℝ × ℝ :=
  let x := kp_co.1 - handle.1
  let y := kp_co.2 - handle.2
  let tan_angle :=
    if x ≠ 0 then
      let t := angular_converter u (Real.arctan (y / x))
      if t < 0.001 ∧ -0.001 < t then 0 else t
    else copysign 90 y
  let tan_mag := Real.sqrt (x ^ 2 + y ^ 2)
  (round6 tan_angle, round6 tan_mag)

/-- Concrete location group keyed only on channel X (Scenario B of the
spec), used as the completion witness input. -/
def c4grp : List ANIM_FCurve :=
  [⟨⟨PyV.s "Root", "location", 0, PyV.i 2, PyV.i 0⟩, [("output", PyV.s "linear")],
    [animkey_make_simple 0 0, animkey_make_simple 10 5]⟩]

/-- Concrete euler-rotation group keyed only on channels X and Z, used as
the idempotence witness input. -/
def c9grp : List ANIM_FCurve :=
  [⟨⟨PyV.s "Bone", "rotation_euler", 0, PyV.i 0, PyV.i 1⟩, [], [animkey_make_simple 1 3]⟩,
   ⟨⟨PyV.s "Bone", "rotation_euler", 2, PyV.i 0, PyV.i 2⟩, [], [animkey_make_simple 1 7]⟩]

/-- C1: for a property group whose channels are keyed at frames 2 and 16,
the frame sequence handed to the offset computation is `[16, 2]` — the
hash-table slot order of the Python set built by `get_frames` — which is
not sorted non-decreasingly, so the space-conversion pass does not
process this group's frames in increasing time order. -/
theorem prep_frames_set_order_unsorted :
    frames_iter_order [[2, 16]] = [16, 2] ∧
      ¬ List.Sorted (· ≤ ·) (frames_iter_order [[2, 16]]) := by
  constructor <;> decide

/-- C2: the `tan_lock` local of `anim_keys_elements` is initialized once
before the key loop and only ever set to 0, so after a key with a FREE
handle every later key of the same curve is emitted with tangent-lock 0
even when its own handles are not FREE. Here the FREE/FREE key followed
by an ALIGNED/ALIGNED key yields locks `[0, 0]`, while the same ALIGNED
key alone yields `[1]` — its flag depends on the preceding keyframe. -/
theorem anim_keys_tan_lock_latches :
    (anim_keys_elements false 0 0
        [⟨0, .BEZIER, .FREE, .FREE⟩, ⟨10, .BEZIER, .ALIGNED, .ALIGNED⟩]).map
        (fun k => k.tan_lock) = [0, 0] ∧
    (anim_keys_elements false 0 0
        [⟨10, .BEZIER, .ALIGNED, .ALIGNED⟩]).map (fun k => k.tan_lock) = [1] := by
  constructor <;> decide

/-- C3 counterexample: the encoder emits `chr(88 + array_index)` for every
property group (the quaternion offset-87 branch exists only as
commented-out code), so component 0 — of a quaternion group as of any
other — maps to letter 'X', not 'W'; and the decoder maps 'W' to
component index -1, not 0. -/
theorem fc_chan_quat_not_W :
    fc_chan 0 = 'X' ∧ ('X' : Char) ≠ 'W' ∧ rna_id_of 'W' = -1 := by
  refine ⟨rfl, by decide, by decide⟩

/-- C3 (amended): the channel letter is `chr(88 + component index)` for
every group — components 0, 1, 2 map to 'X', 'Y', 'Z' — and the decoder
`ord(letter) - 88` inverts this mapping on those letters; quaternion
groups never emit 'W' because rotations are exported as Euler X/Y/Z with
component 3 skipped. -/
theorem fc_chan_ascii_mapping :
    (fc_chan 0 = 'X' ∧ fc_chan 1 = 'Y' ∧ fc_chan 2 = 'Z') ∧
    (rna_id_of (fc_chan 0) = 0 ∧ rna_id_of (fc_chan 1) = 1 ∧ rna_id_of (fc_chan 2) = 2) := by
  refine ⟨⟨rfl, rfl, rfl⟩, by decide, by decide, by decide⟩

/-- C7: the writer's own bare node line `anim Root 0 2 0;` has exactly 4
fields after `anim`, but the reader flags `isEmpty` only for fewer than 4
fields, so the line is not classified as property-less; the node-element
builder then produces a bogus channel declaration (node name `2`,
property `"Root"`, component 0) instead of `None`. -/
theorem bare_anim_line_not_recognized_empty :
    read_prop_anim "anim Root 0 2 0;\n" =
      some ([PyV.s "Root", PyV.i 0, PyV.i 2, PyV.i 0], false) ∧
    get_node_elements "anim Root 0 2 0;\n" =
      some (some ⟨PyV.i 2, "Root", 0, PyV.i 2, PyV.i 0⟩) := by
  constructor <;> decide

/-- C8 counterexample: the empty token is not a valid float literal, yet
`getFloat` returns it unchanged (the falsy check short-circuits before
`float(...)` runs) instead of returning NaN. -/
theorem getFloat_empty_not_nan :
    getFloat (PyV.s "") = PyV.s "" ∧ PyV.s "" ≠ PyV.f PyFloat.nan := by
  constructor <;> decide

/-- C8 (amended): for every NON-EMPTY token string that is not a valid
float literal the float reader returns NaN, and the integer reader
returns None for every token string that is not a valid integer literal;
neither raises (`ValueError` is caught on both paths; the model is
total). The empty token is returned unchanged by the float reader rather
than as NaN. -/
theorem readers_malformed_token_policy (s : String) :
    (s ≠ "" → pyFloatParse s = Option.none → getFloat (PyV.s s) = PyV.f PyFloat.nan) ∧
    (pyIntParse s = Option.none → getInt s = PyV.pnone) := by
  constructor
  · intro hne hbad
    simp [getFloat, pyTruthy, hne, float_builtin, hbad]
  · intro hbad
    simp [getInt, hbad]

/-- C8 witness: the malformed token "abc" is turned into NaN by the float
reader and into None by the integer reader. -/
theorem readers_malformed_token_policy_witness :
    getFloat (PyV.s "abc") = PyV.f PyFloat.nan ∧ getInt "abc" = PyV.pnone :=
  ⟨(readers_malformed_token_policy "abc").1 (by decide) (by decide),
   (readers_malformed_token_policy "abc").2 (by decide)⟩

/-- C10 counterexample: the token "nan" parses successfully
(`float("nan")` raises no error), yet `getFloat` returns NaN for it, so
NaN is not produced only for strings that fail to parse. -/
theorem getFloat_nan_literal_produces_nan :
    getFloat (PyV.s "nan") = PyV.f PyFloat.nan ∧
      pyFloatParse "nan" = some PyFloat.nan := by
  constructor <;> decide

/-- C10 (amended): for falsy input (the empty string or None) the float
reader returns the input itself unchanged — never NaN nor any float —
and a NaN result arises only from a non-empty string that either fails
to parse or is itself a NaN literal. -/
theorem getFloat_falsy_identity :
    getFloat (PyV.s "") = PyV.s "" ∧ getFloat PyV.pnone = PyV.pnone ∧
    (∀ s : String, getFloat (PyV.s s) = PyV.f PyFloat.nan →
      s ≠ "" ∧ (pyFloatParse s = Option.none ∨ pyFloatParse s = some PyFloat.nan)) := by
  refine ⟨by decide, by decide, ?_⟩
  intro s h
  by_cases hs : s = ""
  · subst hs
    simp [getFloat, pyTruthy] at h
  · refine ⟨hs, ?_⟩
    simp [getFloat, pyTruthy, float_builtin, hs] at h
    cases hp : pyFloatParse s with
    | none => exact Or.inl rfl
    | some x =>
      rw [hp] at h
      cases x with
      | finite q => simp at h
      | inf => simp at h
      | ninf => simp at h
      | nan => exact Or.inr rfl

/-- C10 witness: a concrete malformed non-empty token satisfies the NaN
characterization. -/
theorem getFloat_falsy_identity_witness :
    "abc" ≠ "" ∧ (pyFloatParse "abc" = Option.none ∨ pyFloatParse "abc" = some PyFloat.nan) :=
  getFloat_falsy_identity.2.2 "abc" (by decide)

/-- C5: when the space-conversion write-back finds a keyframe at the
target frame (the first one in curve order), it replaces exactly that
keyframe by `shiftKey`, which moves each handle's value component by the
same delta `t_value - old_value` as the key value, leaving the handle
time components, the key time, and every other keyframe untouched; when
no keyframe matches the frame, the Blender insert collaborator is called
and its new keyframe — at the frame, holding the converted value — is
added to the channel. -/
theorem offset_transforms_key_write_spec (insertKP : ℚ → ℚ → KeyPoint)
    (hins : ∀ f v, (insertKP f v).co = (f, v)) (frame t_value : ℚ) :
    (∀ (pre : List KeyPoint) (k : KeyPoint) (post : List KeyPoint),
      (∀ p ∈ pre, p.co.1 ≠ frame) → k.co.1 = frame →
      offset_write_channel insertKP frame t_value (pre ++ k :: post) =
        pre ++ shiftKey t_value k :: post) ∧
    (∀ kps : List KeyPoint, (∀ p ∈ kps, p.co.1 ≠ frame) →
      offset_write_channel insertKP frame t_value kps = kps ++ [insertKP frame t_value] ∧
      (insertKP frame t_value).co = (frame, t_value)) ∧
    (∀ k : KeyPoint,
      (shiftKey t_value k).co = (k.co.1, t_value) ∧
      (shiftKey t_value k).handle_left.2 = k.handle_left.2 + (t_value - k.co.2) ∧
      (shiftKey t_value k).handle_right.2 = k.handle_right.2 + (t_value - k.co.2) ∧
      (shiftKey t_value k).handle_left.1 = k.handle_left.1 ∧
      (shiftKey t_value k).handle_right.1 = k.handle_right.1) := by
  refine ⟨?_, ?_, ?_⟩
  · intro pre k post hpre hk
    induction pre with
    | nil => simp [offset_write_channel, hk]
    | cons p ps ih =>
      have hp : p.co.1 ≠ frame := hpre p (by simp)
      simp only [List.cons_append, offset_write_channel, if_neg hp]
      exact congrArg (List.cons p) (ih (fun q hq => hpre q (by simp [hq])))
  · intro kps hk
    refine ⟨?_, hins frame t_value⟩
    induction kps with
    | nil => simp [offset_write_channel]
    | cons p ps ih =>
      have hp : p.co.1 ≠ frame := hk p (by simp)
      simp only [List.cons_append, offset_write_channel, if_neg hp]
      exact congrArg (List.cons p) (ih (fun q hq => hk q (by simp [hq])))
  · intro k
    refine ⟨rfl, ?_, ?_, rfl, rfl⟩ <;> simp [shiftKey] <;> ring

/-- C5 witness: one concrete run of the overwrite branch (key at frame 5,
value 7 → 100, handles 6 → 99 and 8 → 101) and one of the insert
branch. -/
theorem offset_transforms_key_write_witness :
    offset_write_channel (fun f v => ⟨(f, v), (f, v), (f, v)⟩) 5 100
        [⟨(1, 2), (0, 1), (2, 3)⟩, ⟨(5, 7), (4, 6), (6, 8)⟩] =
      [⟨(1, 2), (0, 1), (2, 3)⟩, ⟨(5, 100), (4, 99), (6, 101)⟩] ∧
    offset_write_channel (fun f v => ⟨(f, v), (f, v), (f, v)⟩) 5 100
        [⟨(1, 2), (0, 1), (2, 3)⟩] =
      [⟨(1, 2), (0, 1), (2, 3)⟩, ⟨(5, 100), (5, 100), (5, 100)⟩] := by
  constructor
  · have h := (offset_transforms_key_write_spec (fun f v => ⟨(f, v), (f, v), (f, v)⟩)
      (fun f v => rfl) 5 100).1 [⟨(1, 2), (0, 1), (2, 3)⟩] ⟨(5, 7), (4, 6), (6, 8)⟩ []
      (by norm_num) (by norm_num)
    refine h.trans ?_
    simp [shiftKey]
    norm_num
  · have h := ((offset_transforms_key_write_spec (fun f v => ⟨(f, v), (f, v), (f, v)⟩)
      (fun f v => rfl) 5 100).2.1 [⟨(1, 2), (0, 1), (2, 3)⟩] (by norm_num)).1
    exact h.trans (by norm_num)

/-- Helper: `complete_animFCgroup` on a one-channel group computes the
`resultAt` characterization. -/
theorem complete_one (a : ANIM_FCurve) (t : ℚ)
    (ha0 : 0 ≤ a.node.array_index) (ha3 : a.node.array_index < 3) :
    complete_animFCgroup [a] t =
      some [some (resultAt [a] t 0), some (resultAt [a] t 1), some (resultAt [a] t 2)] := by
  have h : a.node.array_index = 0 ∨ a.node.array_index = 1 ∨ a.node.array_index = 2 := by omega
  rcases h with h | h | h <;>
    simp +decide [complete_animFCgroup, complete_loop, fc_identity, pySetIdx, resultAt,
      mkSynth, List.find?, h]

/-- Helper: `complete_animFCgroup` on a two-channel group computes the
`resultAt` characterization. -/
theorem complete_two (a b : ANIM_FCurve) (t : ℚ)
    (hab : a.node.array_index ≠ b.node.array_index)
    (ha0 : 0 ≤ a.node.array_index) (ha3 : a.node.array_index < 3)
    (hb0 : 0 ≤ b.node.array_index) (hb3 : b.node.array_index < 3) :
    complete_animFCgroup [a, b] t =
      some [some (resultAt [a, b] t 0), some (resultAt [a, b] t 1),
        some (resultAt [a, b] t 2)] := by
  have h1 : a.node.array_index = 0 ∨ a.node.array_index = 1 ∨ a.node.array_index = 2 := by omega
  have h2 : b.node.array_index = 0 ∨ b.node.array_index = 1 ∨ b.node.array_index = 2 := by omega
  rcases h1 with h1 | h1 | h1 <;> rcases h2 with h2 | h2 | h2 <;>
    first
    | (exfalso; omega)
    | simp +decide [complete_animFCgroup, complete_loop, fc_identity, pySetIdx, resultAt,
        mkSynth, List.find?, h1, h2]

/-- Helper: `complete_animFCgroup` on a three-channel group computes the
`resultAt` characterization. -/
theorem complete_three (a b c : ANIM_FCurve) (t : ℚ)
    (hab : a.node.array_index ≠ b.node.array_index)
    (hac : a.node.array_index ≠ c.node.array_index)
    (hbc : b.node.array_index ≠ c.node.array_index)
    (ha0 : 0 ≤ a.node.array_index) (ha3 : a.node.array_index < 3)
    (hb0 : 0 ≤ b.node.array_index) (hb3 : b.node.array_index < 3)
    (hc0 : 0 ≤ c.node.array_index) (hc3 : c.node.array_index < 3) :
    complete_animFCgroup [a, b, c] t =
      some [some (resultAt [a, b, c] t 0), some (resultAt [a, b, c] t 1),
        some (resultAt [a, b, c] t 2)] := by
  have h1 : a.node.array_index = 0 ∨ a.node.array_index = 1 ∨ a.node.array_index = 2 := by omega
  have h2 : b.node.array_index = 0 ∨ b.node.array_index = 1 ∨ b.node.array_index = 2 := by omega
  have h3 : c.node.array_index = 0 ∨ c.node.array_index = 1 ∨ c.node.array_index = 2 := by omega
  rcases h1 with h1 | h1 | h1 <;> rcases h2 with h2 | h2 | h2 <;> rcases h3 with h3 | h3 | h3 <;>
    first
    | (exfalso; omega)
    | simp +decide [complete_animFCgroup, complete_loop, fc_identity, pySetIdx, resultAt,
        mkSynth, List.find?, h1, h2, h3]

/-- Helper: on every non-empty group of at most 3 channels with distinct
in-range component indices, `complete_animFCgroup` returns exactly the
three `resultAt` slots. -/
theorem complete_animFCgroup_eq_resultAt (g : List ANIM_FCurve) (t : ℚ)
    (hne : g ≠ []) (hlen : g.length ≤ 3)
    (hdist : g.Pairwise fun a b => a.node.array_index ≠ b.node.array_index)
    (hrange : ∀ c ∈ g, 0 ≤ c.node.array_index ∧ c.node.array_index < 3) :
    complete_animFCgroup g t =
      some [some (resultAt g t 0), some (resultAt g t 1), some (resultAt g t 2)] := by
  rcases g with _ | ⟨a, g⟩
  · exact absurd rfl hne
  rcases g with _ | ⟨b, g⟩
  · obtain ⟨ha0, ha3⟩ := hrange a (by simp)
    exact complete_one a t ha0 ha3
  rcases g with _ | ⟨c, g⟩
  · obtain ⟨ha0, ha3⟩ := hrange a (by simp)
    obtain ⟨hb0, hb3⟩ := hrange b (by simp)
    rw [List.pairwise_cons] at hdist
    exact complete_two a b t (hdist.1 b (by simp)) ha0 ha3 hb0 hb3
  rcases g with _ | ⟨d, g⟩
  · obtain ⟨ha0, ha3⟩ := hrange a (by simp)
    obtain ⟨hb0, hb3⟩ := hrange b (by simp)
    obtain ⟨hc0, hc3⟩ := hrange c (by simp)
    rw [List.pairwise_cons] at hdist
    obtain ⟨h1, hdist⟩ := hdist
    rw [List.pairwise_cons] at hdist
    obtain ⟨h2, _⟩ := hdist
    exact complete_three a b c t (h1 b (by simp)) (h1 c (by simp)) (h2 c (by simp))
      ha0 ha3 hb0 hb3 hc0 hc3
  · exfalso
    simp at hlen

/-- Helper: with pairwise-distinct component indices, `find?` by a member's
index returns exactly that member. -/
theorem find?_idx_of_mem (g : List ANIM_FCurve)
    (hdist : g.Pairwise fun a b => a.node.array_index ≠ b.node.array_index)
    (c : ANIM_FCurve) (hc : c ∈ g) :
    g.find? (fun x => x.node.array_index = c.node.array_index) = some c := by
  induction g with
  | nil => cases hc
  | cons a g ih =>
    rw [List.pairwise_cons] at hdist
    rcases List.mem_cons.mp hc with rfl | hmem
    · exact List.find?_cons_of_pos g (by simp)
    · have hne : a.node.array_index ≠ c.node.array_index := hdist.1 c hmem
      rw [List.find?_cons_of_neg g (by simp [hne])]
      exact ih hdist.2 hmem

/-- Helper: a present channel occupies the `resultAt` slot of its own
component index, unchanged. -/
theorem resultAt_of_mem (g : List ANIM_FCurve) (t : ℚ)
    (hdist : g.Pairwise fun a b => a.node.array_index ≠ b.node.array_index)
    (c : ANIM_FCurve) (hc : c ∈ g) (h0 : 0 ≤ c.node.array_index) :
    resultAt g t c.node.array_index.toNat = c := by
  unfold resultAt
  rw [show ((c.node.array_index.toNat : Int)) = c.node.array_index from Int.toNat_of_nonneg h0]
  rw [find?_idx_of_mem g hdist c hc]

/-- Helper: a component index keyed by no present channel gets the
synthesized channel. -/
theorem resultAt_of_absent (g : List ANIM_FCurve) (t : ℚ) (k : Nat)
    (h : ∀ c ∈ g, c.node.array_index ≠ (k : Int)) :
    resultAt g t k = mkSynth g.headI t k 0 := by
  unfold resultAt
  rw [List.find?_eq_none.mpr (by simpa using h)]

/-- Helper: every `resultAt` slot holds a channel whose component index is
the slot number. -/
theorem resultAt_array_index (g : List ANIM_FCurve) (t : ℚ) (k : Nat) :
    (resultAt g t k).node.array_index = (k : Int) := by
  unfold resultAt
  cases hf : g.find? (fun c => c.node.array_index = (k : Int)) with
  | none => rfl
  | some c => simpa using List.find?_some hf

/-- Helper: a successful `find?` determines the `resultAt` slot. -/
theorem resultAt_find (g : List ANIM_FCurve) (t : ℚ) (k : Nat) (c : ANIM_FCurve)
    (hf : g.find? (fun x => x.node.array_index = (k : Int)) = some c) :
    resultAt g t k = c := by
  unfold resultAt
  rw [hf]

/-- C4: for every non-empty vector property group with fewer than 3
channels (distinct, in-range component indices) and a first-frame time
`t`, channel completion returns exactly 3 channels; every originally
present channel appears unchanged (in the slot of its own component
index), and every slot whose component no present channel keys holds the
synthesized channel: node data copied from the group's first channel with
the missing component index and id -1, and exactly one keyframe at time
`t` with value 0, `auto`/`auto` tangents, locked tangent, unlocked
weight, and non-breakdown. -/
theorem complete_animFCgroup_fills_vector_group (g : List ANIM_FCurve) (t : ℚ)
    (hne : g ≠ []) (hlen : g.length < 3)
    (hdist : g.Pairwise fun a b => a.node.array_index ≠ b.node.array_index)
    (hrange : ∀ c ∈ g, 0 ≤ c.node.array_index ∧ c.node.array_index < 3) :
    complete_animFCgroup g t =
      some [some (resultAt g t 0), some (resultAt g t 1), some (resultAt g t 2)] ∧
    (∀ c ∈ g, ∃ k : Nat, k < 3 ∧ resultAt g t k = c) ∧
    (∀ k : Nat, k < 3 → (∀ c ∈ g, c.node.array_index ≠ (k : Int)) →
      resultAt g t k =
        ⟨⟨g.headI.node.name, g.headI.node.property, (k : Int), g.headI.node.children,
          PyV.i (-1)⟩, g.headI.settings,
         [⟨t, 0, "auto", "auto", true, false, false,
           Option.none, Option.none, Option.none, Option.none⟩]⟩) := by
  refine ⟨complete_animFCgroup_eq_resultAt g t hne (by omega) hdist hrange, ?_, ?_⟩
  · intro c hc
    obtain ⟨h0, h3⟩ := hrange c hc
    exact ⟨c.node.array_index.toNat, by omega, resultAt_of_mem g t hdist c hc h0⟩
  · intro k hk h
    rw [resultAt_of_absent g t k h]
    rfl

/-- C4 witness: a location group with only channel X keyed (times 0 and
10) satisfies the hypotheses and completes to the three `resultAt`
slots. -/
theorem complete_animFCgroup_fills_witness :
    c4grp ≠ [] ∧ c4grp.length < 3 ∧
    complete_animFCgroup c4grp 0 =
      some [some (resultAt c4grp 0 0), some (resultAt c4grp 0 1), some (resultAt c4grp 0 2)] :=
  ⟨by decide, by decide,
   (complete_animFCgroup_fills_vector_group c4grp 0 (by decide) (by decide)
     (by decide) (by decide)).1⟩

/-- C9: channel completion is idempotent. For every non-empty vector
property group with distinct in-range component indices,
`complete(g, t)` yields a full channel list `g3` and `complete(g3, t)`
returns `g3` itself (in particular a group that already has its full
index-aligned channel set is returned unchanged). -/
theorem complete_animFCgroup_idempotent (g : List ANIM_FCurve) (t : ℚ)
    (hne : g ≠ [])
    (hdist : g.Pairwise fun a b => a.node.array_index ≠ b.node.array_index)
    (hrange : ∀ c ∈ g, 0 ≤ c.node.array_index ∧ c.node.array_index < 3) :
    ∃ g3 : List ANIM_FCurve,
      complete_animFCgroup g t = some (g3.map some) ∧
      complete_animFCgroup g3 t = some (g3.map some) := by
  have hlen : g.length ≤ 3 := by
    rcases g with _ | ⟨a, g⟩
    · simp
    rcases g with _ | ⟨b, g⟩
    · simp
    rcases g with _ | ⟨c, g⟩
    · simp
    rcases g with _ | ⟨d, g⟩
    · simp
    · exfalso
      obtain ⟨ha0, ha3⟩ := hrange a (by simp)
      obtain ⟨hb0, hb3⟩ := hrange b (by simp)
      obtain ⟨hc0, hc3⟩ := hrange c (by simp)
      obtain ⟨hd0, hd3⟩ := hrange d (by simp)
      rw [List.pairwise_cons] at hdist
      obtain ⟨hx1, hdist⟩ := hdist
      rw [List.pairwise_cons] at hdist
      obtain ⟨hx2, hdist⟩ := hdist
      rw [List.pairwise_cons] at hdist
      obtain ⟨hx3, _⟩ := hdist
      have hab := hx1 b (by simp)
      have hac := hx1 c (by simp)
      have had := hx1 d (by simp)
      have hbc := hx2 c (by simp)
      have hbd := hx2 d (by simp)
      have hcd := hx3 d (by simp)
      omega
  have h0 := resultAt_array_index g t 0
  have h1 := resultAt_array_index g t 1
  have h2 := resultAt_array_index g t 2
  refine ⟨[resultAt g t 0, resultAt g t 1, resultAt g t 2], ?_, ?_⟩
  · simpa using complete_animFCgroup_eq_resultAt g t hne hlen hdist hrange
  · have e0 : resultAt [resultAt g t 0, resultAt g t 1, resultAt g t 2] t 0 = resultAt g t 0 :=
      resultAt_find _ t 0 _ (by rw [List.find?_cons_of_pos _ (by simp [h0])])
    have e1 : resultAt [resultAt g t 0, resultAt g t 1, resultAt g t 2] t 1 = resultAt g t 1 :=
      resultAt_find _ t 1 _ (by
        rw [List.find?_cons_of_neg _ (by simp [h0]), List.find?_cons_of_pos _ (by simp [h1])])
    have e2 : resultAt [resultAt g t 0, resultAt g t 1, resultAt g t 2] t 2 = resultAt g t 2 :=
      resultAt_find _ t 2 _ (by
        rw [List.find?_cons_of_neg _ (by simp [h0]), List.find?_cons_of_neg _ (by simp [h1]),
          List.find?_cons_of_pos _ (by simp [h2])])
    have hmain := complete_animFCgroup_eq_resultAt
      [resultAt g t 0, resultAt g t 1, resultAt g t 2] t (by simp) (by simp)
      (by
        refine List.Pairwise.cons ?_ (List.Pairwise.cons ?_ (List.pairwise_singleton _ _))
        · intro x hx
          rcases List.mem_cons.mp hx with rfl | hx
          · rw [h0, h1]; decide
          rcases List.mem_cons.mp hx with rfl | hx
          · rw [h0, h2]; decide
          cases hx
        · intro x hx
          rcases List.mem_cons.mp hx with rfl | hx
          · rw [h1, h2]; decide
          cases hx)
      (by
        intro x hx
        rcases List.mem_cons.mp hx with rfl | hx
        · rw [h0]; omega
        rcases List.mem_cons.mp hx with rfl | hx
        · rw [h1]; omega
        rcases List.mem_cons.mp hx with rfl | hx
        · rw [h2]; omega
        cases hx)
    rw [hmain, e0, e1, e2]
    simp

/-- C9 witness: a euler-rotation group keyed only on components X and Z
satisfies the hypotheses, so completion of it is idempotent. -/
theorem complete_animFCgroup_idempotent_witness :
    c9grp ≠ [] ∧
    ∃ g3 : List ANIM_FCurve,
      complete_animFCgroup c9grp 1 = some (g3.map some) ∧
      complete_animFCgroup g3 1 = some (g3.map some) :=
  ⟨by decide, complete_animFCgroup_idempotent c9grp 1 (by decide) (by decide) (by decide)⟩

/-- C6 counterexample: with Δtime = 0 and the handle one unit ABOVE the
keyframe — so the claim's keyframe-to-handle Δvalue is +1 and the claim
demands angle +90 — the encoder outputs angle -90 (and magnitude 1): the
source takes the sign from keyframe-minus-handle, the negation of the
claim's vector. -/
theorem tangent_calc_zero_dt_sign_flip :
    tangent_calc AngUnit.DEGREES (0, 0) (0, 1) = (-90, 1) ∧ ((-90 : ℝ) ≠ 90) := by
  constructor
  · simp only [tangent_calc, copysign]
    norm_num
    constructor
    · norm_num [round6, round_eq]
    · norm_num [round6, round_eq]
  · norm_num

/-- C6 (amended): writing (Δt, Δv) for the vector from the KEYFRAME TO
THE HANDLE, the encoder always outputs magnitude
`round6 (hypot Δt Δv)`; for Δt ≠ 0 the angle is the slope angle
`arctan (Δv / Δt)` converted to the document's angular unit, clamped to 0
strictly within 1e-3 of zero, and rounded; for Δt = 0 the angle is 90
with the sign of `-Δv` (the source signs by keyframe-minus-handle, so a
handle above the key yields -90 and Δv = 0 yields +90). -/
theorem tangent_calc_spec (u : AngUnit) (kp h : ℝ × ℝ) :
    tangent_calc u kp h =
      (round6 (if h.1 - kp.1 = 0
        then (if 0 < h.2 - kp.2 then -90 else 90)
        else
          (if angular_converter u (Real.arctan ((h.2 - kp.2) / (h.1 - kp.1))) < 0.001 ∧
              -0.001 < angular_converter u (Real.arctan ((h.2 - kp.2) / (h.1 - kp.1)))
            then 0
            else angular_converter u (Real.arctan ((h.2 - kp.2) / (h.1 - kp.1))))),
       round6 (Real.sqrt ((h.1 - kp.1) ^ 2 + (h.2 - kp.2) ^ 2))) := by
  simp only [tangent_calc]
  have hmag : (kp.1 - h.1) ^ 2 + (kp.2 - h.2) ^ 2 = (h.1 - kp.1) ^ 2 + (h.2 - kp.2) ^ 2 := by
    ring
  rw [hmag]
  by_cases hz : h.1 - kp.1 = 0
  · have hx0 : kp.1 - h.1 = 0 := by linarith
    rw [if_neg (by simpa using hx0), if_pos hz]
    have hcs : copysign 90 (kp.2 - h.2) = (if 0 < h.2 - kp.2 then (-90 : ℝ) else 90) := by
      unfold copysign
      by_cases hv : 0 < h.2 - kp.2
      · rw [if_pos (by linarith), if_pos hv]
        norm_num
      · rw [if_neg (by intro hlt; exact hv (by linarith)), if_neg hv]
        norm_num
    rw [hcs]
  · have hx : kp.1 - h.1 ≠ 0 := fun hc => hz (by linarith)
    rw [if_pos (by simpa using hx), if_neg hz]
    have hslope : (kp.2 - h.2) / (kp.1 - h.1) = (h.2 - kp.2) / (h.1 - kp.1) := by
      rw [show kp.2 - h.2 = -(h.2 - kp.2) from by ring,
        show kp.1 - h.1 = -(h.1 - kp.1) from by ring, neg_div_neg_eq]
    rw [hslope]
